import Mathlib

/-!
Verification of the go-media repository (media manipulation layer).

The development shallowly embeds the MediaFlag bitfield operations of
src/media.go, the manager Close and Decode orchestration of
src/pkg/media/manager.go, and the components of this repository whose
implementation files are not present (NewMap, decodemap, the audio
Convert engine), which are modelled from the specification as noted in
their doc comments. Go machine integers are modelled as Nat (all values
involved are far below any overflow boundary, and Go uint semantics for
the bit operations used here agree with Nat); Go errors are modelled by
an explicit error datatype with nil as Option.none or the empty list for
aggregated multierrors; a Go panic is modelled as Option.none in the
result of the function that panics.
-/

/-! ## MediaFlag constants (src/media.go, CONSTANTS block) -/

def MEDIA_FLAG_ALBUM : Nat := 1

def MEDIA_FLAG_ALBUM_TRACK : Nat := 2

def MEDIA_FLAG_ALBUM_COMPILATION : Nat := 4

def MEDIA_FLAG_TVSHOW : Nat := 8

def MEDIA_FLAG_TVSHOW_EPISODE : Nat := 16

def MEDIA_FLAG_FILE : Nat := 32

def MEDIA_FLAG_VIDEO : Nat := 64

def MEDIA_FLAG_AUDIO : Nat := 128

def MEDIA_FLAG_SUBTITLE : Nat := 256

def MEDIA_FLAG_DATA : Nat := 512

def MEDIA_FLAG_ATTACHMENT : Nat := 1024

def MEDIA_FLAG_ARTWORK : Nat := 2048

def MEDIA_FLAG_CAPTIONS : Nat := 4096

def MEDIA_FLAG_ENCODER : Nat := 8192

def MEDIA_FLAG_DECODER : Nat := 16384

def MEDIA_FLAG_NONE : Nat := 0

def MEDIA_FLAG_MAX : Nat := MEDIA_FLAG_DECODER

/-- The fifteen named single-bit MediaFlag values, in enumeration order. -/
def namedFlags : List Nat :=
  [MEDIA_FLAG_ALBUM, MEDIA_FLAG_ALBUM_TRACK, MEDIA_FLAG_ALBUM_COMPILATION,
   MEDIA_FLAG_TVSHOW, MEDIA_FLAG_TVSHOW_EPISODE, MEDIA_FLAG_FILE,
   MEDIA_FLAG_VIDEO, MEDIA_FLAG_AUDIO, MEDIA_FLAG_SUBTITLE, MEDIA_FLAG_DATA,
   MEDIA_FLAG_ATTACHMENT, MEDIA_FLAG_ARTWORK, MEDIA_FLAG_CAPTIONS,
   MEDIA_FLAG_ENCODER, MEDIA_FLAG_DECODER]

/-- Embedding of MediaFlag.FlagString (src/media.go): a switch over the
single named values, with the explicit invalid marker as default case. -/
def FlagString (f : Nat) : String :=
  if f = MEDIA_FLAG_NONE then "MEDIA_FLAG_NONE"
  else if f = MEDIA_FLAG_ALBUM then "MEDIA_FLAG_ALBUM"
  else if f = MEDIA_FLAG_ALBUM_TRACK then "MEDIA_FLAG_ALBUM_TRACK"
  else if f = MEDIA_FLAG_ALBUM_COMPILATION then "MEDIA_FLAG_ALBUM_COMPILATION"
  else if f = MEDIA_FLAG_TVSHOW then "MEDIA_FLAG_TVSHOW"
  else if f = MEDIA_FLAG_TVSHOW_EPISODE then "MEDIA_FLAG_TVSHOW_EPISODE"
  else if f = MEDIA_FLAG_FILE then "MEDIA_FLAG_FILE"
  else if f = MEDIA_FLAG_VIDEO then "MEDIA_FLAG_VIDEO"
  else if f = MEDIA_FLAG_AUDIO then "MEDIA_FLAG_AUDIO"
  else if f = MEDIA_FLAG_SUBTITLE then "MEDIA_FLAG_SUBTITLE"
  else if f = MEDIA_FLAG_DATA then "MEDIA_FLAG_DATA"
  else if f = MEDIA_FLAG_ATTACHMENT then "MEDIA_FLAG_ATTACHMENT"
  else if f = MEDIA_FLAG_ARTWORK then "MEDIA_FLAG_ARTWORK"
  else if f = MEDIA_FLAG_CAPTIONS then "MEDIA_FLAG_CAPTIONS"
  else if f = MEDIA_FLAG_ENCODER then "MEDIA_FLAG_ENCODER"
  else if f = MEDIA_FLAG_DECODER then "MEDIA_FLAG_DECODER"
  else "[?? Invalid MediaFlag]"

/-- The loop body of MediaFlag.String (src/media.go): the Go loop runs
v over 1, 2, 4, ..., MEDIA_FLAG_MAX = 2 ^ 14, appending a bar and the
name of every named bit set in f. -/
def stringLoop (f : Nat) : String :=
  ((List.range 15).map fun i => 2 ^ i).foldl
    (fun str v => if f &&& v = v then str ++ ("|" ++ FlagString v) else str) ""

/-- Model of the Go slicing expression str[1:]: defined when the string
is nonempty, and a run time panic (None) on the empty string. All
strings built by stringLoop are ASCII, so byte indexing and character
indexing agree. -/
def goSliceFromOne (s : String) : Option String :=
  match s.data with
  | [] => none
  | _ :: cs => some (String.mk cs)

/-- Embedding of MediaFlag.String (src/media.go): the zero flag renders
through FlagString, any other value runs the loop and slices off the
leading bar. The result is None exactly when the Go code panics. -/
def mediaFlagString (f : Nat) : Option String :=
  if f = MEDIA_FLAG_NONE then some (FlagString f)
  else goSliceFromOne (stringLoop f)

/-- Embedding of MediaFlag.Is (src/media.go): f AND v equals v. -/
def MediaFlagIs (f v : Nat) : Bool := f &&& v == v

/-! ## Specification-side helpers for rendering -/

/-- Indices below 15 whose bit is set in f, in enumeration order; these
are exactly the named bits the String loop renders. -/
def setNamedIdx (f : Nat) : List Nat :=
  (List.range 15).filter fun i => f &&& 2 ^ i = 2 ^ i

/-- Join a list of names with the bar delimiter. -/
def barJoin : List String → String
  | [] => ""
  | [n] => n
  | n :: m :: rest => n ++ ("|" ++ barJoin (m :: rest))

/-- One bar-prefixed name per rendered index. -/
def barConcat : List String → String
  | [] => ""
  | n :: rest => ("|" ++ n) ++ barConcat rest

theorem barConcat_eq_bar_barJoin (n : String) (ns : List String) :
    barConcat (n :: ns) = "|" ++ barJoin (n :: ns) := by
  induction ns generalizing n with
  | nil => simp [barConcat, barJoin, String.append_empty]
  | cons m rest ih =>
    show ("|" ++ n) ++ barConcat (m :: rest) = "|" ++ (n ++ ("|" ++ barJoin (m :: rest)))
    rw [ih m, String.append_assoc]

theorem stringLoop_foldl (f : Nat) (l : List Nat) (s : String) :
    (l.map fun i => 2 ^ i).foldl
      (fun str v => if f &&& v = v then str ++ ("|" ++ FlagString v) else str) s
    = s ++ barConcat ((l.filter fun i => f &&& 2 ^ i = 2 ^ i).map
        fun i => FlagString (2 ^ i)) := by
  induction l generalizing s with
  | nil => simp [barConcat, String.append_empty]
  | cons i rest ih =>
    by_cases h : f &&& 2 ^ i = 2 ^ i
    · simp only [List.map_cons, List.foldl_cons, if_pos h, List.filter_cons, h,
        decide_True, if_true]
      rw [ih]
      show s ++ ("|" ++ FlagString (2 ^ i)) ++ barConcat _ = _
      rw [String.append_assoc]
      rfl
    · simp only [List.map_cons, List.foldl_cons, if_neg h, List.filter_cons, h,
        decide_False, if_false]
      exact ih s

theorem stringLoop_eq (f : Nat) :
    stringLoop f = barConcat ((setNamedIdx f).map fun i => FlagString (2 ^ i)) := by
  rw [stringLoop, stringLoop_foldl, String.empty_append]
  rfl

theorem goSliceFromOne_bar (x : String) : goSliceFromOne ("|" ++ x) = some x := by
  cases x with
  | mk d => rfl

/-- C2 (amended): MediaFlag.String renders the zero flag as the none
token; a value with at least one named bit set renders the names of its
named bits joined by the bar delimiter in enumeration order, silently
dropping any set bits above MEDIA_FLAG_MAX; a nonzero value with no
named bit set makes the Go code slice an empty string, a panic (none).
No invalid marker is ever produced for a nonzero value. -/
theorem mediaFlagString_spec (f : Nat) :
    mediaFlagString f =
      if f = 0 then some "MEDIA_FLAG_NONE"
      else if setNamedIdx f = [] then none
      else some (barJoin ((setNamedIdx f).map fun i => FlagString (2 ^ i))) := by
  by_cases h0 : f = 0
  · subst h0
    rfl
  · simp only [mediaFlagString, MEDIA_FLAG_NONE]
    rw [if_neg h0, if_neg h0, stringLoop_eq]
    cases hsn : setNamedIdx f with
    | nil => rfl
    | cons i rest =>
      rw [if_neg (by simp)]
      rw [List.map_cons, barConcat_eq_bar_barJoin, goSliceFromOne_bar]

/-- C2 counterexample: the value with MEDIA_FLAG_ALBUM and the unnamed
bit 2 ^ 15 set renders as the album name alone, silently dropping the
unrecognized bit instead of producing the invalid marker. -/
theorem mediaFlagString_truncates_cex :
    mediaFlagString 32769 = some "MEDIA_FLAG_ALBUM" ∧
    mediaFlagString 32769 ≠ some "[?? Invalid MediaFlag]" := by
  constructor
  · rfl
  · decide

/-- C10: for the nonzero value 2 ^ 15, whose only set bit lies above
MEDIA_FLAG_MAX, the String loop builds the empty string and the Go
slicing expression str[1:] is evaluated on it, a slice bounds panic
(modelled as none): String is not total on its public domain. -/
theorem mediaFlagString_panics_on_unnamed_bits :
    stringLoop 32768 = "" ∧ goSliceFromOne "" = none ∧
    mediaFlagString 32768 = none := by
  refine ⟨rfl, rfl, rfl⟩

/-! ## Flag composition (claim C9) -/

/-- Bitwise OR of the named flags selected by the characteristic
function S over enumeration indices 0 to 14. -/
def orOfSubset (S : Nat → Bool) : Nat :=
  (List.range 15).foldr
    (fun i acc => if S i then namedFlags.getD i 0 ||| acc else acc) 0

theorem namedFlags_getD (i : Nat) (hi : i < 15) : namedFlags.getD i 0 = 2 ^ i := by
  revert i
  decide

theorem mediaFlagIs_two_pow (f j : Nat) : MediaFlagIs f (2 ^ j) = f.testBit j := by
  unfold MediaFlagIs
  rw [Nat.and_two_pow]
  cases h : f.testBit j
  · simp only [Bool.toNat_false, Nat.zero_mul, beq_iff_eq]
    exact decide_eq_false (Nat.two_pow_pos j).ne
  · simp only [Bool.toNat_true, Nat.one_mul, beq_self_eq_true]

theorem foldr_or_testBit (S : Nat → Bool) (j : Nat) (l : List Nat)
    (hl : ∀ i ∈ l, i < 15) :
    ((l.foldr (fun i acc => if S i then namedFlags.getD i 0 ||| acc else acc)
        0).testBit j)
      = (l.contains j && S j) := by
  induction l with
  | nil => simp [Nat.zero_testBit]
  | cons i rest ih =>
    have hi : i < 15 := hl i (List.mem_cons_self i rest)
    have hrest : ∀ x ∈ rest, x < 15 := fun x hx => hl x (List.mem_cons_of_mem i hx)
    simp only [List.foldr_cons, List.contains_cons]
    by_cases hij : j = i
    · subst hij
      cases hS : S j
      · rw [if_neg (by simp [hS]), ih hrest]
        simp [hS]
      · rw [if_pos (by simp [hS]), namedFlags_getD j hi, Nat.testBit_or,
          Nat.testBit_two_pow_self]
        simp
    · cases hS : S i
      · rw [if_neg (by simp [hS]), ih hrest]
        simp [beq_eq_false_iff_ne.mpr hij]
      · rw [if_pos (by simp [hS]), namedFlags_getD i hi, Nat.testBit_or,
          Nat.testBit_two_pow_of_ne (fun h => hij h.symm), ih hrest]
        simp [beq_eq_false_iff_ne.mpr hij]

theorem orOfSubset_testBit (S : Nat → Bool) (j : Nat) (hj : j < 15) :
    (orOfSubset S).testBit j = S j := by
  rw [orOfSubset, foldr_or_testBit S j (List.range 15) (by intro i hi; exact List.mem_range.mp hi)]
  have hcj : (List.range 15).contains j = true := by
    simpa using List.mem_range.mpr hj
  rw [hcj, Bool.true_and]

/-- C9: for every subset S of the named MediaFlag enumeration, the
bitwise OR of the members of S, tested through Is against the named
flag at enumeration index j, reports membership of j in S. -/
theorem flagIs_or_subset (S : Nat → Bool) (j : Nat) (hj : j < 15) :
    MediaFlagIs (orOfSubset S) (namedFlags.getD j 0) = S j := by
  rw [namedFlags_getD j hj, mediaFlagIs_two_pow, orOfSubset_testBit S j hj]

/-- A concrete subset: enumeration indices 0 (album) and 7 (audio). -/
def subsetExample : Nat → Bool := fun n => n == 0 || n == 7

/-- C9 witness: the theorem applied at the concrete subset containing
indices 0 and 7, tested at the member index 7 and non-member index 3. -/
theorem flagIs_or_subset_witness :
    (7 < 15 ∧ MediaFlagIs (orOfSubset subsetExample) (namedFlags.getD 7 0) = subsetExample 7) ∧
    (3 < 15 ∧ MediaFlagIs (orOfSubset subsetExample) (namedFlags.getD 3 0) = subsetExample 3) :=
  ⟨⟨by decide, flagIs_or_subset subsetExample 7 (by decide)⟩,
   ⟨by decide, flagIs_or_subset subsetExample 3 (by decide)⟩⟩

/-! ## Go error values and the decode engine (src/pkg/media/manager.go) -/

/-- A Go error value as relevant here: io.EOF, context.Canceled, or an
arbitrary other error tagged by a number. -/
inductive GoError where
  | eof : GoError
  | canceled : GoError
  | err : Nat → GoError
  deriving DecidableEq, Repr

/-- Embedding of the Packet interface (src/media.go): the fields the
decode engine can observe through the reusable packet buffer. -/
structure PacketModel where
  streamIndex : Nat
  flags : Nat
  pos : Int
  size : Nat
  deriving DecidableEq, Repr

/-- The value manager.Decode returns: nil, an aggregated multierror
(nonempty list of contributing errors, individually inspectable), the
context error returned directly from the cancellation branch, or the
bad-parameter validation error. -/
inductive DecodeResult where
  | ok : DecodeResult
  | errList : List GoError → DecodeResult
  | ctxErr : GoError → DecodeResult
  | badParam : String → DecodeResult
  deriving DecidableEq, Repr

/-- Whether the context cancellation signal has fired by loop iteration
i: the context is cancelled from iteration k on (none = never). -/
def ctxDone (cancelAt : Option Nat) (i : Nat) : Bool :=
  match cancelAt with
  | none => false
  | some k => decide (k ≤ i)

/-- Modelled from the spec: decodemap.Decode (pkg/media/map.go is
absent from src/). Per spec section 4.4 steps 4 and 5, a packet whose
stream is in the Map selection is dispatched to the caller handler and
the handler result is returned; a packet of an unselected stream is
skipped silently (nil). The selection is the list of selected stream
indices. -/
def decodemapDecode (sel : List Nat) (fn : PacketModel → Option GoError)
    (p : PacketModel) : Option GoError :=
  if p.streamIndex ∈ sel then fn p else none

/-- Observable outcome of the read loop of manager.Decode: the error
list accumulated in result, the packets for which the caller handler
was invoked (in order), the number of reads attempted against the
container, and whether the loop was exited through the cancellation
branch (which returns ctx.Err() directly). -/
structure LoopOut where
  result : List GoError
  calls : List PacketModel
  reads : Nat
  viaCtx : Bool
  deriving DecidableEq, Repr

/-- Embedding of the FOR_LOOP of manager.Decode (src/pkg/media/manager.go).
The container is modelled as the list of packets av_read_frame yields
in order followed by the terminal read error fin (io.EOF at normal end
of stream); i is the loop iteration index used to evaluate the
cancellation signal. A read error that is not io.EOF is appended to
result; a non-nil result of decodemapDecode is appended to result; both
break the loop. -/
def decodeLoop (cancelAt : Option Nat) (sel : List Nat)
    (fn : PacketModel → Option GoError) :
    Nat → List PacketModel → GoError → List GoError → LoopOut
  | i, packets, fin, result =>
    if ctxDone cancelAt i then ⟨result, [], 0, true⟩
    else
      match packets with
      | [] =>
        if fin = GoError.eof then ⟨result, [], 1, false⟩
        else ⟨result ++ [fin], [], 1, false⟩
      | p :: ps =>
        match decodemapDecode sel fn p with
        | some e =>
          ⟨result ++ [e], if p.streamIndex ∈ sel then [p] else [], 1, false⟩
        | none =>
          let rest := decodeLoop cancelAt sel fn (i + 1) ps fin result
          ⟨rest.result, (if p.streamIndex ∈ sel then [p] else []) ++ rest.calls,
           rest.reads + 1, rest.viaCtx⟩

/-- Observable outcome of manager.Decode: the returned value, the
aggregated error list underlying it, the handler invocations, the reads
attempted, and how many times the decodemap was closed. -/
structure DecodeOutcome where
  ret : DecodeResult
  agg : List GoError
  calls : List PacketModel
  reads : Nat
  mapCloses : Nat
  deriving DecidableEq, Repr

/-- Embedding of manager.Decode (src/pkg/media/manager.go). The two
type assertions at the top are modelled by the validity booleans; a
failed assertion returns ErrBadParameter before the loop. After the
loop the decodemap is closed exactly once and a close failure
(modelled from the spec as the abstract result closeErr, since the
decodemap implementation is absent from src/) is appended to the
aggregate; the cancellation branch instead returns ctx.Err() directly,
without reaching the close. -/
def managerDecode (inputValid packetValid : Bool) (cancelAt : Option Nat)
    (sel : List Nat) (fn : PacketModel → Option GoError)
    (closeErr : Option GoError) (packets : List PacketModel) (fin : GoError) :
    DecodeOutcome :=
  if inputValid = false then ⟨DecodeResult.badParam "input", [], [], 0, 0⟩
  else if packetValid = false then ⟨DecodeResult.badParam "packet", [], [], 0, 0⟩
  else
    let lo := decodeLoop cancelAt sel fn 0 packets fin []
    if lo.viaCtx then ⟨DecodeResult.ctxErr GoError.canceled, lo.result, lo.calls, lo.reads, 0⟩
    else
      let result := lo.result ++ closeErr.toList
      ⟨if result = [] then DecodeResult.ok else DecodeResult.errList result,
       result, lo.calls, lo.reads, 1⟩

/-! ## manager.Close (claim C8) -/

/-- Embedding of manager.Close (src/pkg/media/manager.go): every open
Media handle, modelled by the result its Close() call will produce, is
closed in turn; each failure is appended to the multierror result. The
second component counts the close attempts. -/
def managerClose (handles : List (Option GoError)) : List GoError × Nat :=
  handles.foldl
    (fun acc h =>
      match h with
      | some e => (acc.1 ++ [e], acc.2 + 1)
      | none => (acc.1, acc.2 + 1)) ([], 0)

/-- The individual close failures among the handles, in order. -/
def failuresOf : List (Option GoError) → List GoError
  | [] => []
  | none :: rest => failuresOf rest
  | some e :: rest => e :: failuresOf rest

theorem failuresOf_eq_nil (handles : List (Option GoError)) :
    failuresOf handles = [] ↔ ∀ h ∈ handles, h = none := by
  induction handles with
  | nil => simp [failuresOf]
  | cons h rest ih =>
    cases h with
    | none => simpa [failuresOf] using ih
    | some e => simp [failuresOf]

theorem managerClose_foldl (handles : List (Option GoError))
    (acc : List GoError × Nat) :
    handles.foldl
      (fun acc h =>
        match h with
        | some e => (acc.1 ++ [e], acc.2 + 1)
        | none => (acc.1, acc.2 + 1)) acc
    = (acc.1 ++ failuresOf handles, acc.2 + handles.length) := by
  induction handles generalizing acc with
  | nil => simp [failuresOf]
  | cons h rest ih =>
    cases h with
    | none =>
      simp only [List.foldl_cons, failuresOf, List.length_cons]
      rw [ih]
      simp only [Prod.mk.injEq]
      exact ⟨by trivial, by omega⟩
    | some e =>
      simp only [List.foldl_cons, failuresOf, List.length_cons]
      rw [ih]
      simp only [Prod.mk.injEq]
      constructor
      · rw [List.append_assoc]
        rfl
      · omega

/-- C8: manager.Close attempts to close every tracked handle, collects
exactly the individual close failures, in order, into the aggregated
error (whose members stay individually inspectable), and returns nil
exactly when every close succeeded. -/
theorem managerClose_spec (handles : List (Option GoError)) :
    (managerClose handles).2 = handles.length ∧
    (managerClose handles).1 = failuresOf handles ∧
    ((managerClose handles).1 = [] ↔ ∀ h ∈ handles, h = none) := by
  have h := managerClose_foldl handles ([], 0)
  rw [managerClose, h]
  refine ⟨by simp, by simp, ?_⟩
  simp only [List.nil_append]
  exact failuresOf_eq_nil handles

/-! ## Decode engine claims -/

theorem decodeLoop_ctx_fired (cancelAt : Option Nat) (sel : List Nat)
    (fn : PacketModel → Option GoError) (i : Nat) (packets : List PacketModel)
    (fin : GoError) (result : List GoError) (h : ctxDone cancelAt i = true) :
    decodeLoop cancelAt sel fn i packets fin result = ⟨result, [], 0, true⟩ := by
  cases packets with
  | nil => rw [decodeLoop, if_pos h]
  | cons p ps => rw [decodeLoop, if_pos h]

/-- C5: with a context already cancelled before the first iteration and
validation passing, Decode returns the context error directly, the
handler is never invoked, and no read is attempted. -/
theorem decode_cancelled_before_read (sel : List Nat)
    (fn : PacketModel → Option GoError) (closeErr : Option GoError)
    (packets : List PacketModel) (fin : GoError) :
    (managerDecode true true (some 0) sel fn closeErr packets fin).ret
      = DecodeResult.ctxErr GoError.canceled ∧
    (managerDecode true true (some 0) sel fn closeErr packets fin).calls = [] ∧
    (managerDecode true true (some 0) sel fn closeErr packets fin).reads = 0 := by
  have hloop : decodeLoop (some 0) sel fn 0 packets fin [] = ⟨[], [], 0, true⟩ :=
    decodeLoop_ctx_fired (some 0) sel fn 0 packets fin [] (by decide)
  refine ⟨?_, ?_, ?_⟩ <;> simp [managerDecode, hloop]

theorem decodeLoop_all_ok (sel : List Nat) (fn : PacketModel → Option GoError)
    (packets : List PacketModel) :
    ∀ (i : Nat) (result : List GoError),
      (∀ p ∈ packets, p.streamIndex ∈ sel) → (∀ p ∈ packets, fn p = none) →
      decodeLoop none sel fn i packets GoError.eof result
        = ⟨result, packets, packets.length + 1, false⟩ := by
  induction packets with
  | nil =>
    intro i result _ _
    rw [decodeLoop]
    rfl
  | cons p ps ih =>
    intro i result hsel hok
    have hp : p.streamIndex ∈ sel := hsel p (List.mem_cons_self p ps)
    have hfp : fn p = none := hok p (List.mem_cons_self p ps)
    have hd : decodemapDecode sel fn p = none := by
      rw [decodemapDecode, if_pos hp, hfp]
    have hrest := ih (i + 1) result
      (fun q hq => hsel q (List.mem_cons_of_mem p hq))
      (fun q hq => hok q (List.mem_cons_of_mem p hq))
    rw [decodeLoop]
    simp [ctxDone, hd, hrest, if_pos hp]

/-- C6: without cancellation, a container holding N packets of selected
streams followed by end of stream, a handler that always succeeds, and
a clean session close yield exactly one handler invocation per packet,
in order, and a nil result: end of stream contributes no error. -/
theorem decode_eof_clean (sel : List Nat) (fn : PacketModel → Option GoError)
    (packets : List PacketModel)
    (hsel : ∀ p ∈ packets, p.streamIndex ∈ sel)
    (hok : ∀ p ∈ packets, fn p = none) :
    (managerDecode true true none sel fn none packets GoError.eof).calls = packets ∧
    (managerDecode true true none sel fn none packets GoError.eof).ret
      = DecodeResult.ok := by
  have hloop := decodeLoop_all_ok sel fn packets 0 [] hsel hok
  refine ⟨?_, ?_⟩ <;> simp [managerDecode, hloop]

/-- A handler that always succeeds. -/
def cbNone : PacketModel → Option GoError := fun _ => none

/-- A first concrete packet on stream 0. -/
def packetA : PacketModel := ⟨0, MEDIA_FLAG_AUDIO, 0, 4⟩

/-- A second concrete packet on stream 0. -/
def packetB : PacketModel := ⟨0, MEDIA_FLAG_AUDIO, 4, 4⟩

/-- C6 witness: two packets of the selected stream 0 yield two handler
invocations and a nil result. -/
theorem decode_eof_clean_witness :
    (∀ p ∈ [packetA, packetB], p.streamIndex ∈ [0]) ∧
    (∀ p ∈ [packetA, packetB], cbNone p = none) ∧
    ((managerDecode true true none [0] cbNone none [packetA, packetB]
        GoError.eof).calls = [packetA, packetB] ∧
     (managerDecode true true none [0] cbNone none [packetA, packetB]
        GoError.eof).ret = DecodeResult.ok) :=
  ⟨by decide, by decide,
   decode_eof_clean [0] cbNone [packetA, packetB] (by decide) (by decide)⟩

theorem decodeLoop_handler_err (sel : List Nat) (fn : PacketModel → Option GoError)
    (p : PacketModel) (post : List PacketModel) (e : GoError) (fin : GoError)
    (hsel : p.streamIndex ∈ sel) (he : fn p = some e) :
    ∀ (pre : List PacketModel) (i : Nat) (result : List GoError),
      (∀ q ∈ pre, decodemapDecode sel fn q = none) →
      decodeLoop none sel fn i (pre ++ p :: post) fin result
        = ⟨result ++ [e],
           (pre.filter fun q => decide (q.streamIndex ∈ sel)) ++ [p],
           pre.length + 1, false⟩ := by
  intro pre
  induction pre with
  | nil =>
    intro i result _
    have hd : decodemapDecode sel fn p = some e := by
      rw [decodemapDecode, if_pos hsel, he]
    rw [List.nil_append, decodeLoop]
    simp [ctxDone, hd, if_pos hsel]
  | cons q pre' ih =>
    intro i result hpre
    have hq : decodemapDecode sel fn q = none := hpre q (List.mem_cons_self q pre')
    have hrest := ih (i + 1) result
      (fun r hr => hpre r (List.mem_cons_of_mem q hr))
    rw [List.cons_append, decodeLoop]
    simp only [ctxDone, hq, hrest, List.filter_cons, List.length_cons]
    by_cases hqs : q.streamIndex ∈ sel
    · simp [hqs, List.append_assoc]
    · simp [hqs]

/-- C7: without cancellation, when the handler returns a non-nil error
for the first selected packet p after a prefix that produced no error,
that error is recorded in the aggregated error set, the loop ends
immediately (exactly one more read, no dispatch past p), and Decode
surfaces the aggregate containing it. -/
theorem decode_handler_error_terminal (sel : List Nat)
    (fn : PacketModel → Option GoError) (closeErr : Option GoError)
    (pre post : List PacketModel) (p : PacketModel) (e : GoError) (fin : GoError)
    (hpre : ∀ q ∈ pre, decodemapDecode sel fn q = none)
    (hsel : p.streamIndex ∈ sel) (he : fn p = some e) :
    (managerDecode true true none sel fn closeErr (pre ++ p :: post) fin).reads
      = pre.length + 1 ∧
    (managerDecode true true none sel fn closeErr (pre ++ p :: post) fin).calls
      = (pre.filter fun q => decide (q.streamIndex ∈ sel)) ++ [p] ∧
    e ∈ (managerDecode true true none sel fn closeErr (pre ++ p :: post) fin).agg ∧
    (managerDecode true true none sel fn closeErr (pre ++ p :: post) fin).ret
      = DecodeResult.errList
          ((managerDecode true true none sel fn closeErr (pre ++ p :: post) fin).agg) := by
  have hloop := decodeLoop_handler_err sel fn p post e fin hsel he pre 0 [] hpre
  refine ⟨?_, ?_, ?_, ?_⟩ <;>
    simp [managerDecode, hloop]

/-- A handler failing with error 7 on every packet. -/
def cbFail : PacketModel → Option GoError := fun _ => some (GoError.err 7)

/-- C7 witness: the handler fails on the first packet; one read, one
call, and the aggregate surfaces the handler error. -/
theorem decode_handler_error_terminal_witness :
    (∀ q ∈ ([] : List PacketModel), decodemapDecode [0] cbFail q = none) ∧
    packetA.streamIndex ∈ [0] ∧ cbFail packetA = some (GoError.err 7) ∧
    ((managerDecode true true none [0] cbFail none ([] ++ packetA :: [packetB])
        GoError.eof).reads = ([] : List PacketModel).length + 1 ∧
     (managerDecode true true none [0] cbFail none ([] ++ packetA :: [packetB])
        GoError.eof).calls
       = (List.filter (fun q => decide (q.streamIndex ∈ [0])) ([] : List PacketModel)) ++ [packetA] ∧
     GoError.err 7 ∈ (managerDecode true true none [0] cbFail none
        ([] ++ packetA :: [packetB]) GoError.eof).agg ∧
     (managerDecode true true none [0] cbFail none ([] ++ packetA :: [packetB])
        GoError.eof).ret
       = DecodeResult.errList ((managerDecode true true none [0] cbFail none
           ([] ++ packetA :: [packetB]) GoError.eof).agg)) :=
  ⟨by decide, by decide, by decide,
   decode_handler_error_terminal [0] cbFail none [] [packetB] packetA
     (GoError.err 7) GoError.eof (by decide) (by decide) (by decide)⟩

/-- C1 (amended): with validation passing, when the read loop exits by
end of stream, read error, or handler error (not via cancellation), the
decodemap is closed exactly once before Decode returns and a close
failure is appended to the aggregated error set, never replacing the
loop errors; when the loop exits via the cancellation branch, Decode
returns the context error directly and the decodemap is not closed. -/
theorem decode_close_policy (cancelAt : Option Nat) (sel : List Nat)
    (fn : PacketModel → Option GoError) (closeErr : Option GoError)
    (packets : List PacketModel) (fin : GoError) :
    ((decodeLoop cancelAt sel fn 0 packets fin []).viaCtx = false →
      (managerDecode true true cancelAt sel fn closeErr packets fin).mapCloses = 1 ∧
      (managerDecode true true cancelAt sel fn closeErr packets fin).agg
        = (decodeLoop cancelAt sel fn 0 packets fin []).result ++ closeErr.toList) ∧
    ((decodeLoop cancelAt sel fn 0 packets fin []).viaCtx = true →
      (managerDecode true true cancelAt sel fn closeErr packets fin).mapCloses = 0 ∧
      (managerDecode true true cancelAt sel fn closeErr packets fin).ret
        = DecodeResult.ctxErr GoError.canceled) := by
  constructor <;> intro h <;> constructor <;> simp [managerDecode, h]

/-- C1 counterexample: with valid parameters and a context cancelled
before the first read, the execution enters the read loop (the
cancellation check is the first statement of its body) and Decode
returns without closing the decodemap even once. -/
theorem decode_cancel_skips_close_cex :
    ¬ (managerDecode true true (some 0) [0] cbNone none [packetA]
        GoError.eof).mapCloses = 1 := by
  decide

/-- C1 witness: a run ending at end of stream with a failing close has
exactly one close whose error joins the aggregate; a run cancelled at
iteration 0 has no close and returns the context error. -/
theorem decode_close_policy_witness :
    ((managerDecode true true none [0] cbNone (some (GoError.err 3)) []
        GoError.eof).mapCloses = 1 ∧
     (managerDecode true true none [0] cbNone (some (GoError.err 3)) []
        GoError.eof).agg
       = (decodeLoop none [0] cbNone 0 [] GoError.eof []).result
         ++ (some (GoError.err 3)).toList) ∧
    ((managerDecode true true (some 0) [0] cbNone none [] GoError.eof).mapCloses = 0 ∧
     (managerDecode true true (some 0) [0] cbNone none [] GoError.eof).ret
       = DecodeResult.ctxErr GoError.canceled) :=
  ⟨(decode_close_policy none [0] cbNone (some (GoError.err 3)) [] GoError.eof).1
     (by decide),
   (decode_close_policy (some 0) [0] cbNone none [] GoError.eof).2 (by decide)⟩

/-! ## Stream map construction (claim C4) -/

/-- Embedding of the Stream interface (src/media.go): index of the
stream in the media and its media flags. -/
structure StreamModel where
  index : Nat
  flags : Nat
  deriving DecidableEq, Repr

/-- The stream categories a Map selects over, in the order the spec
lists them: video, audio, subtitle, data, attachment. -/
def categories : List Nat :=
  [MEDIA_FLAG_VIDEO, MEDIA_FLAG_AUDIO, MEDIA_FLAG_SUBTITLE, MEDIA_FLAG_DATA,
   MEDIA_FLAG_ATTACHMENT]

/-- Whether a stream carries category bit c, through MediaFlag.Is. -/
def streamMatches (c : Nat) (s : StreamModel) : Bool := MediaFlagIs s.flags c

/-- The first stream of category c in stream index order. -/
def firstMatch (streams : List StreamModel) (c : Nat) : Option StreamModel :=
  streams.find? (streamMatches c)

/-- Modelled from the spec: NewMap (pkg/media/map.go) is absent from
src/. Per spec section 4.3, the map walks the streams of the Media
once, listed here in increasing stream index order; a NONE selector
considers every category, an explicit selector restricts to the
requested categories; for each considered category the first matching
stream in stream index order is selected, and a category with no match
is simply absent. -/
def NewMap (streams : List StreamModel) (flags : Nat) : List StreamModel :=
  (if flags = MEDIA_FLAG_NONE then categories
   else categories.filter fun c => MediaFlagIs flags c).filterMap
    (firstMatch streams)

/-- How many of the five categories a stream belongs to. -/
def categoryCount (s : StreamModel) : Nat :=
  (categories.filter fun c => streamMatches c s).length

theorem eq_of_mem_of_length_le_one {α : Type} {l : List α} (hl : l.length ≤ 1)
    {a b : α} (ha : a ∈ l) (hb : b ∈ l) : a = b := by
  cases l with
  | nil => cases ha
  | cons x xs =>
    cases xs with
    | nil =>
      rw [List.mem_singleton] at ha hb
      rw [ha, hb]
    | cons y ys =>
      simp [List.length_cons] at hl

theorem find?_eq_head?_filter {α : Type} (p : α → Bool) (l : List α) :
    l.find? p = (l.filter p).head? := by
  induction l with
  | nil => rfl
  | cons x xs ih =>
    cases hx : p x with
    | true =>
      rw [List.find?_cons_of_pos xs hx, List.filter_cons_of_pos hx]
      rfl
    | false =>
      rw [List.find?_cons_of_neg xs (by simp [hx]),
        List.filter_cons_of_neg (by simp [hx]), ih]

/-- C4: with streams listed in increasing index order and each stream
in at most one category, the NONE selector picks at most one stream per
category, namely the first matching stream in stream index order; every
category with a representative contributes it to the map; and the first
match is literally the head of the streams of that category. -/
theorem map_none_one_per_category (streams : List StreamModel)
    (hone : ∀ s ∈ streams, categoryCount s ≤ 1) :
    (∀ c ∈ categories, ∀ x ∈ NewMap streams MEDIA_FLAG_NONE,
       streamMatches c x = true → firstMatch streams c = some x) ∧
    (∀ c ∈ categories, ∀ s, firstMatch streams c = some s →
       s ∈ NewMap streams MEDIA_FLAG_NONE) ∧
    (∀ c, firstMatch streams c = (streams.filter (streamMatches c)).head?) := by
  refine ⟨?_, ?_, ?_⟩
  · intro c hc x hx hmatch
    have hx' : x ∈ categories.filterMap (firstMatch streams) := by
      simpa [NewMap] using hx
    rcases List.mem_filterMap.mp hx' with ⟨c', hc', hfc'⟩
    have hxm : streamMatches c' x = true := List.find?_some hfc'
    have hxs : x ∈ streams := List.mem_of_find?_eq_some hfc'
    have hcc : c = c' := by
      refine eq_of_mem_of_length_le_one (hone x hxs) ?_ ?_
      · exact List.mem_filter.mpr ⟨hc, hmatch⟩
      · exact List.mem_filter.mpr ⟨hc', hxm⟩
    rw [hcc]
    exact hfc'
  · intro c hc s hfs
    have : s ∈ categories.filterMap (firstMatch streams) :=
      List.mem_filterMap.mpr ⟨c, hc, hfs⟩
    simpa [NewMap] using this
  · intro c
    exact find?_eq_head?_filter (streamMatches c) streams

/-- The video stream of the worked example, index 0. -/
def streamV : StreamModel := ⟨0, MEDIA_FLAG_VIDEO⟩

/-- The audio stream of the worked example, index 1. -/
def streamA : StreamModel := ⟨1, MEDIA_FLAG_AUDIO⟩

/-- The first subtitle stream of the worked example, index 2. -/
def streamS1 : StreamModel := ⟨2, MEDIA_FLAG_SUBTITLE⟩

/-- The second subtitle stream of the worked example, index 3. -/
def streamS2 : StreamModel := ⟨3, MEDIA_FLAG_SUBTITLE⟩

/-- One video, one audio, two subtitle streams, by index. -/
def exampleStreams : List StreamModel := [streamV, streamA, streamS1, streamS2]

/-- C4 witness: on the worked example of the spec the subtitle category
selects the first subtitle stream, by applying the claim theorem. -/
theorem map_none_one_per_category_witness :
    (∀ s ∈ exampleStreams, categoryCount s ≤ 1) ∧
    firstMatch exampleStreams MEDIA_FLAG_SUBTITLE = some streamS1 :=
  ⟨by decide,
   (map_none_one_per_category exampleStreams (by decide)).1
     MEDIA_FLAG_SUBTITLE (by decide) streamS1 (by decide) (by decide)⟩

/-! ## Audio conversion engine (claim C3) -/

/-- Sample format constant from src/unnamed/part_001 (iota order). -/
def SAMPLE_FORMAT_U8 : Nat := 1

/-- Sample format constant from src/unnamed/part_001 (iota order). -/
def SAMPLE_FORMAT_DBL : Nat := 5

/-- Channel layout constant from src/unnamed/part_001 (iota order). -/
def CHANNEL_LAYOUT_MONO : Nat := 1

/-- Embedding of the AudioFormat value triple (src/unnamed/part_001). -/
structure AudioFormat where
  rate : Nat
  format : Nat
  layout : Nat
  deriving DecidableEq, Repr

/-- An audio frame as observable through the Convert callback: its
format and its per channel sample count. -/
structure AudioFrameModel where
  format : AudioFormat
  samples : Nat
  deriving DecidableEq, Repr

/-- Modelled from the spec: the audio Convert engine (pkg/audio) is
absent from src/. Per spec section 4.5, Convert delivers each produced
output frame (abstracted as the list outs) to the callback in
chronological order and a non-nil callback result aborts further
conversion output. Per the repository test Test_manager_000
(src/unnamed/part_000), which asserts that Convert returns no error
when the callback returns io.EOF, a callback result of io.EOF stops
conversion gracefully with a nil overall result, while any other
callback error is surfaced as the overall result. The first component
is the value Convert returns, the second the frames delivered to the
callback. -/
def convertDeliver :
    List AudioFrameModel → (AudioFrameModel → Option GoError) →
      Option GoError × List AudioFrameModel
  | [], _ => (none, [])
  | f :: fs, cb =>
    match cb f with
    | none =>
      let r := convertDeliver fs cb
      (r.1, f :: r.2)
    | some e => (if e = GoError.eof then none else some e, [f])

/-- The output frame of the worked conversion: 44100 Hz double mono. -/
def frameDbl : AudioFrameModel :=
  ⟨⟨44100, SAMPLE_FORMAT_DBL, CHANNEL_LAYOUT_MONO⟩, 44100⟩

/-- C3 counterexample: a callback returning io.EOF on the first output
frame makes Convert return nil, not io.EOF, exactly as the repository
test asserts; so io.EOF is not surfaced as the overall result. -/
theorem convert_eof_not_surfaced_cex :
    (convertDeliver [frameDbl] (fun _ => some GoError.eof)).1 = none ∧
    (convertDeliver [frameDbl] (fun _ => some GoError.eof)).1
      ≠ some GoError.eof := by
  constructor
  · rfl
  · decide

/-- C3 (amended): a non-nil callback error on output frame f aborts
further conversion output (nothing past f is delivered); an error other
than io.EOF is surfaced as the overall result of Convert, while io.EOF
yields a nil overall result, matching the repository test. -/
theorem convert_callback_error_policy (cb : AudioFrameModel → Option GoError)
    (pre post : List AudioFrameModel) (f : AudioFrameModel) (e : GoError)
    (hpre : ∀ g ∈ pre, cb g = none) (he : cb f = some e) :
    (convertDeliver (pre ++ f :: post) cb).2 = pre ++ [f] ∧
    (convertDeliver (pre ++ f :: post) cb).1
      = (if e = GoError.eof then none else some e) := by
  revert hpre
  induction pre with
  | nil =>
    intro _
    simp [convertDeliver, he]
  | cons g pre' ih =>
    intro hpre
    have hg : cb g = none := hpre g (List.mem_cons_self g pre')
    have hr := ih (fun r hrr => hpre r (List.mem_cons_of_mem g hrr))
    refine ⟨?_, ?_⟩ <;> simp [convertDeliver, hg, hr.1, hr.2]

/-- A callback failing with error 7 on every frame. -/
def cbConvErr : AudioFrameModel → Option GoError := fun _ => some (GoError.err 7)

/-- C3 witness: the amended theorem applied to a single output frame
and a callback failing with an error other than io.EOF. -/
theorem convert_callback_error_policy_witness :
    (convertDeliver (([] : List AudioFrameModel) ++ frameDbl :: []) cbConvErr).2
      = ([] : List AudioFrameModel) ++ [frameDbl] ∧
    (convertDeliver (([] : List AudioFrameModel) ++ frameDbl :: []) cbConvErr).1
      = (if GoError.err 7 = GoError.eof then none else some (GoError.err 7)) :=
  convert_callback_error_policy cbConvErr [] [] frameDbl (GoError.err 7)
    (by decide) (by decide)
